import Mathlib

/-!
Shallow embedding of the nn_tilde message backend (`Backend_MSG`, file
`src/backend/backend_msg.cpp`) and of the MaxMSP frontend object
`nn_msg_tilde` (file `src/frontend/maxmsp/nn.msg_tilde/nn.msg_tilde.cpp`).

TorchScript models are external to the repository: a model is embedded as
plain data (its named methods, its named attributes, and a pure `run`
function giving the result of invoking a named method, where `none` stands
for a raised exception).  Tensors are carried as flat lists of rationals
(shape bookkeeping is irrelevant to the verified properties); `float` and
`double` samples are embedded as rationals, which is exact for every value
appearing in the claims.
-/

namespace NNTilde

/-- TorchScript runtime values (`c10::IValue`) as used by the backend:
booleans, integers, floating point numbers (embedded as rationals),
strings, 1-D tensors (flat lists of rationals), lists and tuples. -/
inductive IValue where
  | vbool : Bool → IValue
  | vint : Int → IValue
  | vfloat : ℚ → IValue
  | vstr : String → IValue
  | vtensor : List ℚ → IValue
  | vlist : List IValue → IValue
  | vtuple : List IValue → IValue

/-- Conversion `IValue::toBool`; raises (here `none`) on a non-boolean. -/
def IValue.toBool : IValue → Option Bool
  | .vbool b => some b
  | _ => none

/-- Conversion `IValue::toInt`; raises (here `none`) on a non-integer. -/
def IValue.toInt : IValue → Option Int
  | .vint n => some n
  | _ => none

/-- Conversion `IValue::to<float>`; raises (here `none`) on a non-float. -/
def IValue.toFloat : IValue → Option ℚ
  | .vfloat q => some q
  | _ => none

/-- Conversion `IValue::toStringRef`; raises (here `none`) on a non-string. -/
def IValue.toStringRef : IValue → Option String
  | .vstr s => some s
  | _ => none

/-- Conversion `IValue::toTensor`; raises (here `none`) on a non-tensor. -/
def IValue.toTensor : IValue → Option (List ℚ)
  | .vtensor t => some t
  | _ => none

/-- The C cast of a scalar tensor element to `int`
(`.item().to<int>()`): truncation toward zero. -/
def ratToInt (q : ℚ) : Int :=
  q.num.tdiv (q.den : Int)

/-- A loaded TorchScript model, embedded as data.  `methods` are the names
accepted by `get_method` / enumerated by `get_methods()`, `attrs` the named
attributes enumerated by `named_attributes()` and looked up by `attr`, and
`run name args` the result of invoking method `name` on `args` (`none`
models a raised exception, including a missing method). -/
structure TSModel where
  methods : List String
  attrs : List (String × IValue)
  run : String → List IValue → Option IValue

/-- Lookup `m_model.attr name`; `none` models the raised exception when the
attribute does not exist. -/
def attr_lookup (m : TSModel) (name : String) : Option IValue :=
  (m.attrs.find? (fun p => p.fst = name)).map Prod.snd

/-- Lookup `m_model.attr(name).toTensor()`: `none` when the attribute is
missing or is not a tensor. -/
def attr_tensor (m : TSModel) (name : String) : Option (List ℚ) :=
  match attr_lookup m name with
  | some (IValue.vtensor t) => some t
  | _ => none

/-! ### power_ceil (nn.msg_tilde.cpp lines 16-24)

```
unsigned power_ceil(unsigned x) {
  if (x <= 1) return 1;
  int power = 2;
  x--;
  while (x >>= 1) power <<= 1;
  return power;
}
```

The loop body first shifts (`x >>= 1`), tests the shifted value, and
doubles `power` while it is nonzero. -/

/-- The `while (x >>= 1) power <<= 1` loop of `power_ceil`, entered with the
already decremented `x`. -/
def power_ceil_loop (x power : Nat) : Nat :=
  if _h : x / 2 = 0 then power
  else power_ceil_loop (x / 2) (power * 2)
termination_by x
decreasing_by
  exact Nat.div_lt_self (Nat.pos_of_ne_zero (fun hx => _h (by simp [hx]))) (by norm_num)

/-- Embedding of `power_ceil` from `nn.msg_tilde.cpp`. -/
def power_ceil (x : Nat) : Nat :=
  if x ≤ 1 then 1 else power_ceil_loop (x - 1) 2

theorem power_ceil_loop_eq (x power : Nat) (hx : 1 ≤ x) :
    power_ceil_loop x power = power * 2 ^ Nat.log 2 x := by
  induction x using Nat.strong_induction_on generalizing power with
  | _ x ih =>
    rw [power_ceil_loop]
    by_cases h : x / 2 = 0
    · have hx1 : x = 1 := by omega
      simp [h, hx1]
    · have hx2 : 2 ≤ x := by omega
      have hlt : x / 2 < x := Nat.div_lt_self (by omega) (by norm_num)
      have h1 : 1 ≤ x / 2 := Nat.pos_of_ne_zero h
      simp only [h, if_neg, dite_false]
      rw [ih (x / 2) hlt (power * 2) h1]
      have hlog : Nat.log 2 (x / 2) = Nat.log 2 x - 1 := Nat.log_div_base 2 x
      have hpos : 0 < Nat.log 2 x := Nat.log_pos (by norm_num) hx2
      rw [hlog, mul_assoc]
      congr 1
      rw [← pow_succ']
      congr 1
      omega

theorem power_ceil_eq_pow (x : Nat) (hx : 2 ≤ x) :
    power_ceil x = 2 ^ (Nat.log 2 (x - 1) + 1) := by
  rw [power_ceil, if_neg (by omega), power_ceil_loop_eq (x - 1) 2 (by omega)]
  rw [pow_succ']

/-- `power_ceil x` is an upper bound: `x ≤ power_ceil x`. -/
theorem le_power_ceil (x : Nat) : x ≤ power_ceil x := by
  by_cases hx : x ≤ 1
  · simp only [power_ceil, if_pos hx]
    omega
  · rw [power_ceil_eq_pow x (by omega)]
    have := Nat.lt_pow_succ_log_self (b := 2) (by norm_num) (x - 1)
    omega

/-- `power_ceil x` is a power of two. -/
theorem power_ceil_is_pow (x : Nat) : ∃ k, power_ceil x = 2 ^ k := by
  by_cases hx : x ≤ 1
  · exact ⟨0, by simp [power_ceil, hx]⟩
  · exact ⟨Nat.log 2 (x - 1) + 1, power_ceil_eq_pow x (by omega)⟩

/-- `power_ceil x` is the least power of two that is at least `x`. -/
theorem power_ceil_min (x m : Nat) (hm : x ≤ 2 ^ m) : power_ceil x ≤ 2 ^ m := by
  by_cases hx : x ≤ 1
  · simp only [power_ceil, if_pos hx]
    exact Nat.one_le_two_pow
  · rw [power_ceil_eq_pow x (by omega)]
    have hx1 : x - 1 ≠ 0 := by omega
    have hle : 2 ^ Nat.log 2 (x - 1) ≤ x - 1 := Nat.pow_log_le_self 2 hx1
    have hlt : 2 ^ Nat.log 2 (x - 1) < 2 ^ m := by omega
    have : Nat.log 2 (x - 1) < m := by
      exact (Nat.pow_lt_pow_iff_right (by norm_num)).mp hlt
    exact Nat.pow_le_pow_right (by norm_num) (by omega)

/-! ### Backend state (backend_msg.cpp) -/

/-- The mutable state of `Backend_MSG` relevant to the verified claims: the
loaded module, the loaded flag (`int m_loaded`, 0 or 1), the stored path,
and the cached method catalog `m_available_methods`.  The compute device
member and the debug stream carry no behaviour verified here. -/
structure Backend where
  m_model : TSModel
  m_loaded : Bool
  m_path : String
  m_available_methods : List String

/-- Embedding of `Backend_MSG::get_method_params` (lines 392-412): when the
method is in the catalog, read the `<method>_params` tensor and push its
first four entries cast to `int`; a missing or non-tensor attribute raises
into the empty vector, and indexing past the end of a shorter tensor
raises out of the push loop keeping the already pushed prefix, so the
result is `p.take 4` uniformly.  Unknown methods give the empty vector. -/
def get_method_params (b : Backend) (method : String) : List Int :=
  if method ∈ b.m_available_methods then
    match attr_tensor b.m_model (method ++ "_params") with
    | some p => (p.take 4).map ratToInt
    | none => []
  else []

/-- Embedding of `Backend_MSG::get_higher_ratio` (lines 414-424): running
maximum, starting from 1, of `max(params[1], params[3])` over the catalog,
skipping methods whose parameter vector is empty.  (`params[1]` or
`params[3]` on a vector of fewer than four entries is an out-of-range read
in the source; the defaulted reads below are only exercised under the
well-formedness hypothesis of the corresponding theorem.) -/
def get_higher_ratio (b : Backend) : Int :=
  b.m_available_methods.foldl
    (fun acc method =>
      let params := get_method_params b method
      if params.length = 0 then acc
      else max acc (max (params.getD 1 0) (params.getD 3 0)))
    1

/-- Embedding of `std::vector::resize(n, fill)`: truncate, or pad with the
fill value. -/
def vec_resize (v : List ℚ) (n : Nat) (fill : ℚ) : List ℚ :=
  if n ≤ v.length then v.take n else v ++ List.replicate (n - v.length) fill

/-- Embedding of `memcpy(out_msg.data(), out_ptr, out_msg.size() *
sizeof(float))`: overwrite all of `dst` with the leading `dst.length`
elements of `src` (in `perform` the two lengths are equal whenever the
copy runs, so the defaulted read is never exercised there). -/
def memcpy_floats (dst src : List ℚ) : List ℚ :=
  (List.range dst.length).map (fun i => src.getD i 0)

/-- The guarded model invocation of `perform` (lines 56-65): run the named
method on the input tensor and convert the result with `toTensor`; `none`
models the exception caught there (missing method, raising method, or a
non-tensor result). -/
def Backend.modelInvoke (b : Backend) (method : String) (in_msg : List ℚ) :
    Option (List ℚ) :=
  match b.m_model.run method [IValue.vtensor in_msg] with
  | some v => v.toTensor
  | none => none

/-- Embedding of `Backend_MSG::perform` (lines 21-83).  The input is turned
into a tensor of shape `[1, in_msg.size(), 1]` (values kept flat here), the
method is invoked under the model lock, and on success the result is
flattened, the output vector is resized once when its length differs from
the result length, and the result bytes are copied over it.  Every failure
path returns before touching `out_msg`. -/
def Backend.perform (b : Backend) (in_msg out_msg : List ℚ) (method : String) :
    List ℚ :=
  let params := get_method_params b method
  if params.length = 0 then out_msg
  else if b.m_loaded = false then out_msg
  else
    match b.modelInvoke method in_msg with
    | none => out_msg
    | some tensor_out =>
      let out1 := if out_msg.length ≠ tensor_out.length
        then vec_resize out_msg tensor_out.length 0 else out_msg
      memcpy_floats out1 tensor_out

/-! ### Discovery (method catalog and attribute lists) -/

/-- The string-collection loop shared by `get_available_methods` and
`get_settable_attributes`: convert list elements with `toStringRef` in
order; the boolean records whether every element converted (a failed cast
raises out of the loop, keeping the prefix pushed so far). -/
def take_strings : List IValue → List String × Bool
  | [] => ([], true)
  | v :: rest =>
    match v.toStringRef with
    | some s =>
      let p := take_strings rest
      (s :: p.fst, p.snd)
    | none => ([], false)

/-- Fallback scan of `get_available_methods` (lines 153-167): keep the
model methods that have a `<name>_params` attribute. -/
def params_scan_methods (m : TSModel) : List String :=
  m.methods.filter (fun name => (attr_lookup m (name ++ "_params")).isSome)

/-- Embedding of `Backend_MSG::get_available_methods` (lines 136-170):
first try the model introspection method `get_methods`; on any raise
(missing method, non-list result, non-string element) fall back to the
`<name>_params` scan, appending to whatever prefix the first attempt had
already pushed. -/
def get_available_methods (m : TSModel) : List String :=
  match m.run "get_methods" [] with
  | some (IValue.vlist xs) =>
    let p := take_strings xs
    if p.snd then p.fst else p.fst ++ params_scan_methods m
  | some _ => params_scan_methods m
  | none => params_scan_methods m

/-- Embedding of `Backend_MSG::get_available_attributes` (lines 172-179):
the names of all named attributes, unconditionally. -/
def get_available_attributes (m : TSModel) : List String :=
  m.attrs.map Prod.fst

/-- Fallback scan of `get_settable_attributes` (lines 198-210): keep the
named attributes that have a `<name>_params` attribute. -/
def params_scan_attrs (m : TSModel) : List String :=
  (m.attrs.map Prod.fst).filter
    (fun name => (attr_lookup m (name ++ "_params")).isSome)

/-- Embedding of `Backend_MSG::get_settable_attributes` (lines 181-213):
first try the model introspection method `get_attributes`; on any raise
fall back to the `<name>_params` scan over the named attributes, appending
to whatever prefix the first attempt had already pushed. -/
def get_settable_attributes (m : TSModel) : List String :=
  match m.run "get_attributes" [] with
  | some (IValue.vlist xs) =>
    let p := take_strings xs
    if p.snd then p.fst else p.fst ++ params_scan_attrs m
  | some _ => params_scan_attrs m
  | none => params_scan_attrs m

/-! ### Load and reload -/

/-- Embedding of `Backend_MSG::load` (lines 85-107).  The external loader
`jit_load` stands for `torch::jit::load(path)` followed by `.eval()` and
the move to the configured device: `none` models a raise anywhere in that
construction pipeline, which in the source happens before any member is
written, so a failed load leaves the whole backend state unchanged and
returns 1.  On success the fully constructed module is swapped in under
the model lock, the loaded flag is set, the method catalog is refreshed
from the new module, the path is stored for `reload`, and 0 is returned. -/
def Backend.load (jit_load : String → Option TSModel) (b : Backend)
    (path : String) : Backend × Int :=
  match jit_load path with
  | some model =>
    ({ m_model := model
       m_loaded := true
       m_path := path
       m_available_methods := get_available_methods model }, 0)
  | none => (b, 1)

/-- Embedding of `Backend_MSG::reload` (lines 109-113): `load` on the
stored path. -/
def Backend.reload (jit_load : String → Option TSModel) (b : Backend) :
    Backend × Int :=
  Backend.load jit_load b b.m_path

/-! ### Attribute protocol -/

/-- Embedding of `Backend_MSG::get_attribute` (lines 215-256): require the
getter method `get_<name>`; invoke it and normalise a list, a tuple, or a
single value to a value sequence (three interpretations tried in that
order, re-invoking the getter, which is pure here); a raise from the
getter itself propagates out of all three attempts. -/
def get_attribute (m : TSModel) (name : String) : Except String (List IValue) :=
  let getter_name := "get_" ++ name
  if getter_name ∈ m.methods then
    match m.run getter_name [] with
    | some (IValue.vlist xs) => Except.ok xs
    | some (IValue.vtuple xs) => Except.ok xs
    | some v => Except.ok [v]
    | none => Except.error ("getter for attribute " ++ name ++ " raised")
  else
    Except.error ("getter for attribute " ++ name ++ " not found in model")

/-- Fixed six-decimal formatting of `std::to_string` on a floating value
(printf `%f` semantics) on the exact rational embedding: sign, integer
part, decimal point, and six fractional digits of the magnitude rounded
to the nearest millionth (`(2 * |num| * 10^6 + den) / (2 * den)` is the
floor of `|q| * 10^6 + 1/2`). -/
def format_float (q : ℚ) : String :=
  let a := q.num.natAbs * 1000000
  let n := (2 * a + q.den) / (2 * q.den)
  let ip := n / 1000000
  let fp := n % 1000000
  let fps := toString fp
  let pad := String.mk (List.replicate (6 - fps.length) '0')
  (if q.num < 0 then "-" else "") ++ toString ip ++ "." ++ pad ++ fps

/-- One arm of the formatting switch of `get_attribute_as_string`
(lines 277-311), on tag `tag` at position `i`: 0 formats a boolean as
"true" or "false", 1 an integer in decimal, 2 a float in fixed decimal,
3 a string raw; any other tag raises "bad type id", and a value whose
runtime type does not match its tag raises from the `IValue` cast. -/
def format_field (tag : Int) (i : Nat) (v : IValue) : Except String String :=
  if tag = 0 then
    match v.toBool with
    | some b => Except.ok (if b then "true" else "false")
    | none => Except.error "Expected Bool"
  else if tag = 1 then
    match v.toInt with
    | some k => Except.ok (toString k)
    | none => Except.error "Expected Int"
  else if tag = 2 then
    match v.toFloat with
    | some q => Except.ok (format_float q)
    | none => Except.error "Expected Float"
  else if tag = 3 then
    match v.toStringRef with
    | some s => Except.ok s
    | none => Except.error "Expected String"
  else
    Except.error ("bad type id : " ++ toString tag ++ "at index " ++ toString i)

/-- The formatting loop of `get_attribute_as_string` (lines 275-314),
from position `i` on: format `outs[i]` by the tag at position `i` (an
out-of-range read of `getter_outputs[i]` is undefined in the source and
never reached under the length hypothesis of the theorems), appending a
single space after every field except the last. -/
def format_fields : List ℚ → List IValue → Nat → Except String String
  | [], _, _ => Except.ok ""
  | tag :: rest, outs, i =>
    match format_field (ratToInt tag) i (outs.getD i (IValue.vbool false)) with
    | Except.error e => Except.error e
    | Except.ok s =>
      match format_fields rest outs (i + 1) with
      | Except.error e => Except.error e
      | Except.ok srest =>
        Except.ok (s ++ (if rest.isEmpty then "" else " ") ++ srest)

/-- Embedding of `Backend_MSG::get_attribute_as_string` (lines 258-316):
fetch the typed values with `get_attribute`, fetch the `<name>_params`
schema tensor (raising "parameters ... not found in model" when it is
missing or not a tensor), and format the values positionally by tag. -/
def get_attribute_as_string (m : TSModel) (name : String) :
    Except String String :=
  match get_attribute m name with
  | Except.error e => Except.error e
  | Except.ok getter_outputs =>
    match attr_tensor m (name ++ "_params") with
    | none =>
      Except.error ("parameters to set attribute " ++ name ++
        " not found in model")
    | some setter_params => format_fields setter_params getter_outputs 0

/-- Modelled from the spec: `to_bool` of `parsing_utils.h` is not under
`src/`; §4.4 specifies a "boolean parse" of a positional string argument. -/
def to_bool (s : String) : Bool := s = "true"

/-- Accumulator loop reading a run of decimal digit characters as a
natural number (helper of the modelled parsers). -/
def digits_val : List Char → Nat → Nat
  | [], acc => acc
  | c :: rest, acc => digits_val rest (acc * 10 + (c.toNat - 48))

/-- Modelled from the spec: `to_int` of `parsing_utils.h` is not under
`src/`; §4.4 specifies an "integer parse" (decimal, optional sign). -/
def to_int (s : String) : Int :=
  match s.data with
  | '-' :: rest => -(digits_val rest 0 : Int)
  | l => (digits_val l 0 : Int)

/-- Modelled from the spec: `to_float` of `parsing_utils.h` is not under
`src/`; §4.4 specifies a "float parse" (a decimal string, with an optional
sign and an optional fractional part after the decimal point, to a
floating value, embedded here as an exact rational). -/
def to_float (s : String) : ℚ :=
  let body := match s.data with
    | '-' :: rest => rest
    | l => l
  let ip := body.takeWhile (fun c => c ≠ '.')
  let fp := (body.dropWhile (fun c => c ≠ '.')).drop 1
  let n : Int := digits_val ip 0 * 10 ^ fp.length + digits_val fp 0
  mkRat (if s.data.head? = some '-' then -n else n) (10 ^ fp.length)

/-- The argument-parsing loop of `set_attribute` (lines 347-374), from
position `i` on: parse the `i`-th string argument according to the schema
tag at position `i` into a typed setter input (an out-of-range read of
`attribute_args[i]` is undefined in the source; the defaulted read below
is only exercised when the argument-count precondition is broken); an
unrecognised tag raises "bad type id" before the setter is invoked. -/
def parse_setter_inputs : List ℚ → List String → Nat → Except String (List IValue)
  | [], _, _ => Except.ok []
  | tag :: rest, args, i =>
    let t := ratToInt tag
    if t = 0 then
      (parse_setter_inputs rest args (i + 1)).map
        (fun l => IValue.vbool (to_bool (args.getD i "")) :: l)
    else if t = 1 then
      (parse_setter_inputs rest args (i + 1)).map
        (fun l => IValue.vint (to_int (args.getD i "")) :: l)
    else if t = 2 then
      (parse_setter_inputs rest args (i + 1)).map
        (fun l => IValue.vfloat (to_float (args.getD i "")) :: l)
    else if t = 3 then
      (parse_setter_inputs rest args (i + 1)).map
        (fun l => IValue.vstr (args.getD i "") :: l)
    else
      Except.error ("bad type id : " ++ toString t ++ "at index " ++ toString i)

/-- Embedding of `Backend_MSG::set_attribute` (lines 318-390): require the
setter method `set_<name>`, require the `<name>_params` schema tensor,
parse each positional argument by its tag, invoke the setter on the parsed
inputs, and treat anything but an integer return code of 0 (a raise, a
non-integer result, a nonzero code) as "setter ... failed".  On success
the parsed, typed setter inputs are returned so the theorems can speak
about what the setter was invoked with. -/
def set_attribute (m : TSModel) (name : String)
    (attribute_args : List String) : Except String (List IValue) :=
  let setter_name := "set_" ++ name
  if setter_name ∈ m.methods then
    match attr_tensor m (name ++ "_params") with
    | some setter_params =>
      match parse_setter_inputs setter_params attribute_args 0 with
      | Except.error e => Except.error e
      | Except.ok setter_inputs =>
        match m.run setter_name setter_inputs with
        | some out =>
          match out.toInt with
          | some setter_result =>
            if setter_result ≠ 0 then
              Except.error ("setter for " ++ name ++ " failed")
            else Except.ok setter_inputs
          | none => Except.error ("setter for " ++ name ++ " failed")
        | none => Except.error ("setter for " ++ name ++ " failed")
    | none =>
      Except.error ("parameters to set attribute " ++ name ++
        " not found in model")
  else
    Except.error ("setter for attribute " ++ name ++ " not found in model")

/-! ### Frontend (nn.msg_tilde.cpp) -/

/-- The buffer-size resolution of the `nn_msg_tilde` constructor
(nn.msg_tilde.cpp lines 238-246), as a function of the requested size and
of `m_higher_ratio`: a request of 0 takes the higher ratio exactly, a
positive request below the higher ratio is clamped up to it (with a
non-fatal console warning), and any other request is rounded up with
`power_ceil`. -/
def resolve_buffer_size (requested higher_ratio : Nat) : Nat :=
  if requested = 0 then higher_ratio
  else if requested < higher_ratio then higher_ratio
  else power_ceil requested

/-- The `nn_msg_tilde` members read or written by the audio callback
`operator()` (lines 325-346): the backend loaded flag, the enable
attribute, and the resolved buffer size. -/
structure TildeState where
  loaded : Bool
  enable : Bool
  m_buffer_size : Int

/-- Embedding of `fill_with_zero` (lines 316-323): write zero to samples
`0 ≤ i < frame_count` of every channel.  A channel of a Max audio bundle
carries exactly `frame_count` samples; a longer list keeps its tail,
matching the index bound of the loop. -/
def fill_with_zero (output : List (List ℚ)) (frame_count : Nat) :
    List (List ℚ) :=
  output.map
    (fun ch => List.replicate (min frame_count ch.length) 0 ++ ch.drop frame_count)

/-- Embedding of `nn_msg_tilde::operator()` (lines 325-346).  The
`perform_path` parameter abstracts `nn_msg_tilde::perform` (the model and
circular-buffer path, which the claims below do not constrain); the
boolean in the result records whether that path — and hence the model —
was invoked. -/
def audio_callback (perform_path : List (List ℚ) → List (List ℚ))
    (s : TildeState) (output : List (List ℚ)) (frame_count : Nat) :
    TildeState × List (List ℚ) × Bool :=
  if s.loaded = false ∨ s.enable = false then
    (s, fill_with_zero output frame_count, false)
  else if (frame_count : Int) > s.m_buffer_size then
    ({ s with enable := false }, fill_with_zero output frame_count, false)
  else
    (s, perform_path output, true)

theorem power_ceil_ten : power_ceil 10 = 16 := by
  rw [power_ceil_eq_pow 10 (by norm_num)]
  have h9 : Nat.log 2 9 = 3 :=
    Nat.log_eq_of_pow_le_of_lt_pow (by norm_num) (by norm_num)
  rw [show (10 : Nat) - 1 = 9 from rfl, h9]
  norm_num

/-! ### Claim C3: power_ceil computes the least power of two bound -/

/-- C3: for every natural number x ≥ 1, `power_ceil x` returns the least
power of two greater than or equal to x (a value that is already a power
of two is returned unchanged), and `power_ceil 0 = power_ceil 1 = 1`. -/
theorem claim_C3_power_ceil (x : Nat) (hx : 1 ≤ x) :
    x ≤ power_ceil x ∧ (∃ k, power_ceil x = 2 ^ k) ∧
    (∀ m, x ≤ 2 ^ m → power_ceil x ≤ 2 ^ m) ∧
    (∀ k, x = 2 ^ k → power_ceil x = x) ∧
    power_ceil 0 = 1 ∧ power_ceil 1 = 1 := by
  refine ⟨le_power_ceil x, power_ceil_is_pow x,
    fun m hm => power_ceil_min x m hm, fun k hk => ?_, by simp [power_ceil],
    by simp [power_ceil]⟩
  exact Nat.le_antisymm (hk ▸ power_ceil_min x k hk.le) (le_power_ceil x)

/-- Witness for C3 at x = 5: the bound and minimality at the concrete
exponent 3 (so `power_ceil 5 = 8`), obtained from the claim theorem. -/
theorem claim_C3_power_ceil_witness :
    5 ≤ power_ceil 5 ∧ power_ceil 5 ≤ 2 ^ 3 ∧ power_ceil 16 = 16 :=
  ⟨(claim_C3_power_ceil 5 (by norm_num)).1,
   (claim_C3_power_ceil 5 (by norm_num)).2.2.1 3 (by norm_num),
   (claim_C3_power_ceil 16 (by norm_num)).2.2.2.1 4 (by norm_num)⟩

/-! ### Claim C2: buffer size resolution -/

/-- C2: a requested size of 0 yields exactly the higher ratio; a nonzero
requested size strictly below the higher ratio is clamped upward to
exactly the higher ratio (with a non-fatal warning); and any requested
size at or above the higher ratio is replaced by `power_ceil` of the
request; in particular a request of 3 against a higher ratio of 4 gives 4
and a request of 10 gives 16. -/
theorem claim_C2_resolve_buffer_size (requested hr : Nat) (hhr : 1 ≤ hr) :
    (requested = 0 → resolve_buffer_size requested hr = hr) ∧
    (requested ≠ 0 → requested < hr → resolve_buffer_size requested hr = hr) ∧
    (hr ≤ requested → resolve_buffer_size requested hr = power_ceil requested) ∧
    resolve_buffer_size 3 4 = 4 ∧ resolve_buffer_size 10 4 = 16 := by
  refine ⟨fun h0 => by simp [resolve_buffer_size, h0],
    fun h0 hlt => by simp [resolve_buffer_size, h0, hlt],
    fun hge => ?_, by norm_num [resolve_buffer_size], ?_⟩
  · have h0 : requested ≠ 0 := by omega
    simp [resolve_buffer_size, h0, Nat.not_lt.mpr hge]
  · show resolve_buffer_size 10 4 = 16
    norm_num [resolve_buffer_size]
    exact power_ceil_ten

/-- Witness for C2 at requested = 3 and 10 against higher ratio 4. -/
theorem claim_C2_resolve_buffer_size_witness :
    resolve_buffer_size 3 4 = 4 ∧ resolve_buffer_size 10 4 = 16 :=
  ⟨(claim_C2_resolve_buffer_size 3 4 (by norm_num)).2.2.2.1,
   (claim_C2_resolve_buffer_size 3 4 (by norm_num)).2.2.2.2⟩

/-! ### Claim C1: perform fails silently, leaving the output untouched -/

/-- C1: for every call `perform(input, output, method)` where no model is
loaded, or the method has no resolvable MethodParams, or the model
invocation raises, `perform` returns without raising (it is total) and
the prior contents of the output container are left entirely unmodified. -/
theorem claim_C1_perform_silent (b : Backend) (in_msg out_msg : List ℚ)
    (method : String)
    (h : get_method_params b method = [] ∨ b.m_loaded = false ∨
      b.modelInvoke method in_msg = none) :
    Backend.perform b in_msg out_msg method = out_msg := by
  unfold Backend.perform
  rcases h with h | h | h
  · simp [h]
  · by_cases hp : (get_method_params b method).length = 0 <;> simp [h, hp]
  · by_cases hp : (get_method_params b method).length = 0
    · simp [hp]
    · by_cases hl : b.m_loaded = false <;> simp [hp, hl, h]

/-- Witness for C1: `perform` on a backend holding the default-constructed
empty module with the loaded flag down and an empty catalog leaves the
output vector `[1, 2]` exactly as it was. -/
theorem claim_C1_perform_silent_witness :
    Backend.perform ⟨⟨[], [], fun _ _ => none⟩, false, "", []⟩ [1] [1, 2]
      "forward" = [1, 2] :=
  claim_C1_perform_silent ⟨⟨[], [], fun _ _ => none⟩, false, "", []⟩ [1] [1, 2]
    "forward" (Or.inl rfl)

/-! ### Claim C4: the higher ratio over usable methods -/

/-- The per-method ratio contributions that `get_higher_ratio` maximises:
`max(params[1], params[3])` for each catalog method whose parameter
vector is nonempty.  (Specification-side view of the fold.) -/
def usable_ratios (b : Backend) : List Int :=
  b.m_available_methods.filterMap
    (fun method =>
      let params := get_method_params b method
      if params.length = 0 then none
      else some (max (params.getD 1 0) (params.getD 3 0)))

theorem foldl_max_init_le (l : List Int) (a : Int) : a ≤ l.foldl max a := by
  induction l generalizing a with
  | nil => exact le_refl a
  | cons x xs ih => exact le_trans (le_max_left a x) (ih (max a x))

theorem foldl_max_mem_le (l : List Int) (a x : Int) (hx : x ∈ l) :
    x ≤ l.foldl max a := by
  induction l generalizing a with
  | nil => cases hx
  | cons y ys ih =>
    rw [List.foldl_cons]
    rcases List.mem_cons.mp hx with h | h
    · subst h
      exact le_trans (le_max_right a x) (foldl_max_init_le ys (max a x))
    · exact ih (max a y) h

theorem foldl_max_eq_init_or_mem (l : List Int) (a : Int) :
    l.foldl max a = a ∨ l.foldl max a ∈ l := by
  induction l generalizing a with
  | nil => exact Or.inl rfl
  | cons y ys ih =>
    rcases ih (max a y) with h | h
    · rcases max_choice a y with hm | hm
      · exact Or.inl (by rw [List.foldl_cons, h, hm])
      · exact Or.inr (by rw [List.foldl_cons, h, hm]; exact List.mem_cons_self y ys)
    · exact Or.inr (List.mem_cons_of_mem y h)

theorem foldl_skip_eq_filterMap (f : String → List Int) (l : List String)
    (a : Int) :
    l.foldl (fun acc method =>
      if (f method).length = 0 then acc
      else max acc (max ((f method).getD 1 0) ((f method).getD 3 0))) a =
    (l.filterMap (fun method =>
      if (f method).length = 0 then none
      else some (max ((f method).getD 1 0) ((f method).getD 3 0)))).foldl
      max a := by
  induction l generalizing a with
  | nil => rfl
  | cons m ms ih =>
    by_cases hm : (f m).length = 0 <;>
      simp only [List.foldl_cons, List.filterMap_cons, hm, ite_true,
        ite_false] <;> apply ih

theorem get_higher_ratio_eq_foldl (b : Backend) :
    get_higher_ratio b = (usable_ratios b).foldl max 1 := by
  unfold get_higher_ratio usable_ratios
  exact foldl_skip_eq_filterMap (fun method => get_method_params b method)
    b.m_available_methods 1

/-- C4: `higher_ratio` iterates the methods known to the catalog, skips
every method whose MethodParams are unavailable, and returns the maximum
over the remaining methods of `max(input_ratio, output_ratio)`; when no
method qualifies it returns 1, so the result is always at least 1. -/
theorem claim_C4_higher_ratio (b : Backend)
    (hwf : ∀ r ∈ usable_ratios b, 1 ≤ r) :
    (usable_ratios b = [] → get_higher_ratio b = 1) ∧
    (usable_ratios b ≠ [] →
      get_higher_ratio b ∈ usable_ratios b ∧
      ∀ r ∈ usable_ratios b, r ≤ get_higher_ratio b) ∧
    1 ≤ get_higher_ratio b := by
  rw [get_higher_ratio_eq_foldl]
  refine ⟨fun he => by rw [he]; rfl, fun hne => ⟨?_, ?_⟩, foldl_max_init_le _ 1⟩
  · rcases foldl_max_eq_init_or_mem (usable_ratios b) 1 with h | h
    · rcases List.exists_mem_of_ne_nil (usable_ratios b) hne with ⟨r, hr⟩
      have h1 : r ≤ 1 := h ▸ foldl_max_mem_le _ 1 r hr
      have h2 : 1 ≤ r := hwf r hr
      rw [h]
      exact (le_antisymm h1 h2) ▸ hr
    · exact h
  · exact fun r hr => foldl_max_mem_le _ 1 r hr

/-- Witness for C4 on the example of the claim: methods A with ratios
(1, 4, 1, 2) and B with ratios (1, 1, 1, 1) give a higher ratio of 4,
which is a member of, and an upper bound on, the usable ratios. -/
theorem claim_C4_higher_ratio_witness :
    get_higher_ratio ⟨⟨[], [("A_params", IValue.vtensor [1, 4, 1, 2]),
        ("B_params", IValue.vtensor [1, 1, 1, 1])], fun _ _ => none⟩,
      true, "", ["A", "B"]⟩ = 4 ∧
    get_higher_ratio ⟨⟨[], [("A_params", IValue.vtensor [1, 4, 1, 2]),
        ("B_params", IValue.vtensor [1, 1, 1, 1])], fun _ _ => none⟩,
      true, "", ["A", "B"]⟩ ∈
      usable_ratios ⟨⟨[], [("A_params", IValue.vtensor [1, 4, 1, 2]),
        ("B_params", IValue.vtensor [1, 1, 1, 1])], fun _ _ => none⟩,
      true, "", ["A", "B"]⟩ :=
  ⟨by decide,
   ((claim_C4_higher_ratio ⟨⟨[], [("A_params", IValue.vtensor [1, 4, 1, 2]),
        ("B_params", IValue.vtensor [1, 1, 1, 1])], fun _ _ => none⟩,
      true, "", ["A", "B"]⟩ (by decide)).2.1 (by decide)).1⟩

/-! ### Claim C6: load succeeds atomically, fails without trace -/

/-- C6: `load(path)` returns status 0 on success and nonzero on failure;
on success the fully constructed model (already in eval mode on the
configured device, both part of the external construction pipeline) is
swapped into the shared slot, the method catalog is refreshed from it and
the path is stored for reload; on failure the previous state — loaded
model, loaded flag, stored path and cached catalog — is left entirely
unchanged, so a failed `reload` preserves the previously loaded model. -/
theorem claim_C6_load_atomic (jit_load : String → Option TSModel)
    (b : Backend) (path : String) :
    (∀ model, jit_load path = some model →
      Backend.load jit_load b path =
        ({ m_model := model, m_loaded := true, m_path := path,
           m_available_methods := get_available_methods model }, 0)) ∧
    (jit_load path = none → Backend.load jit_load b path = (b, 1)) ∧
    (jit_load b.m_path = none → Backend.reload jit_load b = (b, 1)) := by
  refine ⟨fun model h => ?_, fun h => ?_, fun h => ?_⟩
  · simp [Backend.load, h]
  · simp [Backend.load, h]
  · simp [Backend.reload, Backend.load, h]

/-- Witness for C6: a loader that fails on the stored path leaves a
concrete loaded backend bit-for-bit unchanged under `reload` and returns
status 1, and a loader that succeeds installs the new module with
status 0. -/
theorem claim_C6_load_atomic_witness :
    Backend.reload (fun _ => none)
      ⟨⟨["forward"], [], fun _ _ => none⟩, true, "old.ts", ["forward"]⟩ =
      (⟨⟨["forward"], [], fun _ _ => none⟩, true, "old.ts", ["forward"]⟩, 1) ∧
    (Backend.load (fun _ => some ⟨[], [], fun _ _ => none⟩)
      ⟨⟨["forward"], [], fun _ _ => none⟩, true, "old.ts", ["forward"]⟩
      "new.ts").2 = 0 :=
  ⟨(claim_C6_load_atomic (fun _ => none)
      ⟨⟨["forward"], [], fun _ _ => none⟩, true, "old.ts", ["forward"]⟩
      "new.ts").2.2 rfl,
   by rw [(claim_C6_load_atomic (fun _ => some ⟨[], [], fun _ _ => none⟩)
      ⟨⟨["forward"], [], fun _ _ => none⟩, true, "old.ts", ["forward"]⟩
      "new.ts").1 ⟨[], [], fun _ _ => none⟩ rfl]⟩

/-! ### Claim C7: attribute discovery (corrected) -/

theorem take_strings_map_vstr (names : List String) :
    take_strings (names.map IValue.vstr) = (names, true) := by
  induction names with
  | nil => rfl
  | cons n ns ih => simp [take_strings, IValue.toStringRef, ih]

/-- C7 counterexample: on a model with one declared attribute `foo`, no
`foo_params` schema, and no usable `get_attributes` introspection (every
invocation raises), `available_attributes()` still returns `foo` — so it
is not true that every name it returns is either reported by
`get_attributes` or carries a `<name>_params` schema, and it performs
neither the introspection-first lookup nor the schema filter that the
claim ascribes to it (the filtered result would have been empty, as
`settable_attributes()` indeed returns). -/
theorem claim_C7_counterexample :
    get_available_attributes ⟨[], [("foo", IValue.vint 0)], fun _ _ => none⟩ =
      ["foo"] ∧
    (⟨[], [("foo", IValue.vint 0)], fun _ _ => none⟩ : TSModel).run
      "get_attributes" [] = none ∧
    attr_lookup ⟨[], [("foo", IValue.vint 0)], fun _ _ => none⟩ "foo_params" =
      none ∧
    get_settable_attributes ⟨[], [("foo", IValue.vint 0)], fun _ _ => none⟩ =
      [] :=
  ⟨rfl, rfl, rfl, rfl⟩

/-- C7 amended: `settable_attributes()` first tries the model-declared
introspection method `get_attributes` and, when it is unavailable, falls
back to scanning all declared attributes and retaining only those with an
associated `<name>_params` schema; `available_attributes()`, however,
returns every declared attribute name unconditionally, with no
introspection attempt and no schema filter. -/
theorem claim_C7_attribute_discovery (m : TSModel) :
    get_available_attributes m = m.attrs.map Prod.fst ∧
    (∀ names, m.run "get_attributes" [] =
        some (IValue.vlist (names.map IValue.vstr)) →
      get_settable_attributes m = names) ∧
    (m.run "get_attributes" [] = none →
      get_settable_attributes m =
        (m.attrs.map Prod.fst).filter
          (fun name => (attr_lookup m (name ++ "_params")).isSome)) := by
  refine ⟨rfl, fun names h => ?_, fun h => ?_⟩
  · simp [get_settable_attributes, h, take_strings_map_vstr]
  · simp [get_settable_attributes, h, params_scan_attrs]

/-- Witness for C7 (amended): a model whose `get_attributes` introspection
answers `["gain"]` reports exactly that, and a model without the
introspection falls back to the schema scan. -/
theorem claim_C7_attribute_discovery_witness :
    get_settable_attributes ⟨["get_attributes"],
      [("gain_params", IValue.vtensor [2])],
      fun name _ => if name = "get_attributes"
        then some (IValue.vlist [IValue.vstr "gain"]) else none⟩ = ["gain"] ∧
    get_settable_attributes ⟨[], [("gain", IValue.vfloat 1),
      ("gain_params", IValue.vtensor [2])], fun _ _ => none⟩ = ["gain"] :=
  ⟨(claim_C7_attribute_discovery ⟨["get_attributes"],
      [("gain_params", IValue.vtensor [2])],
      fun name _ => if name = "get_attributes"
        then some (IValue.vlist [IValue.vstr "gain"]) else none⟩).2.1
      ["gain"] rfl,
   by rw [(claim_C7_attribute_discovery ⟨[], [("gain", IValue.vfloat 1),
      ("gain_params", IValue.vtensor [2])], fun _ _ => none⟩).2.2 rfl]; rfl⟩

/-! ### Claim C10: the audio callback zero-fills and disables -/

theorem fill_with_zero_all_zero (output : List (List ℚ)) (fc : Nat)
    (hlen : ∀ ch ∈ output, ch.length = fc) :
    ∀ ch ∈ fill_with_zero output fc, ∀ x ∈ ch, x = 0 := by
  intro ch hch x hx
  rcases List.mem_map.mp hch with ⟨ch0, hch0, hmap⟩
  have hl : ch0.length = fc := hlen ch0 hch0
  have hdrop : ch0.drop fc = [] := List.drop_eq_nil_of_le (le_of_eq hl)
  rw [← hmap, hl, min_self, hdrop, List.append_nil] at hx
  exact List.eq_of_mem_replicate hx

/-- C10: if no model is loaded or the object is disabled, the audio
callback zero-fills every sample of every output channel, does not invoke
the model, and leaves the state unchanged; if the callback frame count
exceeds the configured buffer size, it additionally clears the enable
flag — so every subsequent callback also zero-fills without invoking the
model — and zero-fills the current output without invoking the model. -/
theorem claim_C10_audio_callback (pf : List (List ℚ) → List (List ℚ))
    (s : TildeState) (output : List (List ℚ)) (fc : Nat) :
    (s.loaded = false ∨ s.enable = false →
      audio_callback pf s output fc = (s, fill_with_zero output fc, false)) ∧
    (s.loaded = true → s.enable = true → (fc : Int) > s.m_buffer_size →
      audio_callback pf s output fc =
        ({ s with enable := false }, fill_with_zero output fc, false) ∧
      ∀ pf2 out2 fc2, audio_callback pf2 { s with enable := false } out2 fc2 =
        ({ s with enable := false }, fill_with_zero out2 fc2, false)) ∧
    ((∀ ch ∈ output, ch.length = fc) →
      s.loaded = false ∨ s.enable = false ∨ (fc : Int) > s.m_buffer_size →
      (audio_callback pf s output fc).2.2 = false ∧
      ∀ ch ∈ (audio_callback pf s output fc).2.1, ∀ x ∈ ch, x = 0) := by
  refine ⟨fun h => by simp [audio_callback, h], fun hl he hfc => ?_, ?_⟩
  · constructor
    · simp [audio_callback, hl, he, hfc]
    · intro pf2 out2 fc2
      simp [audio_callback]
  · intro hlen hcond
    have hzero := fill_with_zero_all_zero output fc hlen
    rcases hcond with h | h | h
    · simp only [audio_callback, h, true_or, if_pos]
      exact ⟨trivial, hzero⟩
    · simp only [audio_callback, h, or_true, if_pos]
      exact ⟨trivial, hzero⟩
    · by_cases hle : s.loaded = false ∨ s.enable = false
      · simp only [audio_callback, if_pos hle]
        exact ⟨trivial, hzero⟩
      · simp only [audio_callback, if_neg hle, if_pos h]
        exact ⟨trivial, hzero⟩

/-- Witness for C10: a loaded, enabled object with buffer size 4 given an
8-frame callback disables itself and zero-fills; the subsequent callback
on the disabled state zero-fills as well. -/
theorem claim_C10_audio_callback_witness :
    audio_callback (fun o => o) ⟨true, true, 4⟩ [[1, 2, 3, 4, 5, 6, 7, 8]] 8 =
      (⟨true, false, 4⟩, [[0, 0, 0, 0, 0, 0, 0, 0]], false) ∧
    audio_callback (fun o => o) ⟨true, false, 4⟩ [[9, 9]] 2 =
      (⟨true, false, 4⟩, [[0, 0]], false) := by
  have h := (claim_C10_audio_callback (fun o => o) ⟨true, true, 4⟩
    [[1, 2, 3, 4, 5, 6, 7, 8]] 8).2.1 rfl rfl (by norm_num)
  refine ⟨?_, ?_⟩
  · rw [h.1]; rfl
  · rw [h.2 (fun o => o) [[9, 9]] 2]; rfl

/-! ### Claim C5: get_attribute_as_string formats by the schema -/

/-- Specification-side joining of formatted fields: a single space between
consecutive fields and no trailing separator, mirroring the space appended
after every field except the last one. -/
def join_spaces : List String → String
  | [] => ""
  | s :: rest => s ++ (if rest.isEmpty then "" else " ") ++ join_spaces rest

/-- Specification-side statement that a schema tag formats a matching
runtime value to a given string: tag 0 a boolean to "true"/"false", tag 1
an integer to its decimal form, tag 2 a float to its fixed six-decimal
form, tag 3 a string to itself. -/
inductive FormatsTo : Int → IValue → String → Prop where
  | bool_tag (b : Bool) :
      FormatsTo 0 (IValue.vbool b) (if b then "true" else "false")
  | int_tag (n : Int) : FormatsTo 1 (IValue.vint n) (toString n)
  | float_tag (q : ℚ) : FormatsTo 2 (IValue.vfloat q) (format_float q)
  | str_tag (s : String) : FormatsTo 3 (IValue.vstr s) s

/-- Pointwise formatting of a whole schema against a value sequence (the
tags of the schema tensor are read through the `int` cast). -/
inductive FormatsAll : List ℚ → List IValue → List String → Prop where
  | nil : FormatsAll [] [] []
  | cons {t : ℚ} {v : IValue} {s : String} {ts : List ℚ} {vs : List IValue}
      {ss : List String} : FormatsTo (ratToInt t) v s → FormatsAll ts vs ss →
      FormatsAll (t :: ts) (v :: vs) (s :: ss)

theorem format_field_ok {tag : Int} {v : IValue} {s : String} (i : Nat)
    (h : FormatsTo tag v s) : format_field tag i v = Except.ok s := by
  cases h with
  | bool_tag b => rfl
  | int_tag n => rfl
  | float_tag q => rfl
  | str_tag s => rfl

theorem format_field_bad (tag : Int) (i : Nat) (v : IValue)
    (h : tag ∉ ([0, 1, 2, 3] : List Int)) :
    format_field tag i v =
      Except.error ("bad type id : " ++ toString tag ++ "at index " ++
        toString i) := by
  simp only [List.mem_cons, List.mem_singleton, not_or] at h
  obtain ⟨h0, h1, h2, h3⟩ := h
  simp [format_field, h0, h1, h2, h3]

theorem getD_drop_cons {α : Type} (l : List α) (i : Nat) (v : α)
    (vs : List α) (d : α) (h : l.drop i = v :: vs) :
    l.getD i d = v ∧ l.drop (i + 1) = vs := by
  induction i generalizing l with
  | zero => cases l <;> simp_all [List.getD]
  | succ n ih =>
    cases l with
    | nil => simp at h
    | cons a rest =>
      have := ih rest (by simpa using h)
      simpa [List.getD] using this

theorem formats_all_isEmpty {ts : List ℚ} {vs : List IValue}
    {ss : List String} (h : FormatsAll ts vs ss) : ts.isEmpty = ss.isEmpty := by
  cases h <;> rfl

theorem format_fields_ok {schema : List ℚ} {rvs : List IValue}
    {fields : List String} (hfmt : FormatsAll schema rvs fields) :
    ∀ (outs : List IValue) (i : Nat), outs.drop i = rvs →
      format_fields schema outs i = Except.ok (join_spaces fields) := by
  induction hfmt with
  | nil => intro outs i _; rfl
  | @cons t v s ts vs ss hf hrest ih =>
    intro outs i hdrop
    obtain ⟨hv, hd⟩ := getD_drop_cons outs i v vs (IValue.vbool false) hdrop
    rw [format_fields, hv, format_field_ok i hf, ih outs (i + 1) hd,
      join_spaces, formats_all_isEmpty hrest]

theorem format_fields_bad {good : List ℚ} {gvs : List IValue}
    {gfields : List String} (hfmt : FormatsAll good gvs gfields) :
    ∀ (bad : ℚ) (rest : List ℚ) (outs : List IValue) (tvs : List IValue)
      (i : Nat), outs.drop i = gvs ++ tvs →
      ratToInt bad ∉ ([0, 1, 2, 3] : List Int) →
      format_fields (good ++ bad :: rest) outs i =
        Except.error ("bad type id : " ++ toString (ratToInt bad) ++
          "at index " ++ toString (i + good.length)) := by
  induction hfmt with
  | nil =>
    intro bad rest outs tvs i _ hbad
    rw [List.nil_append, format_fields,
      format_field_bad (ratToInt bad) i _ hbad]
    rfl
  | @cons t v s ts vs ss hf hrest ih =>
    intro bad rest outs tvs i hdrop hbad
    obtain ⟨hv, hd⟩ := getD_drop_cons outs i v (vs ++ tvs) (IValue.vbool false)
      (by simpa using hdrop)
    rw [List.cons_append, format_fields, hv, format_field_ok i hf,
      ih bad rest outs tvs (i + 1) hd hbad]
    have : i + 1 + ts.length = i + (ts.length + 1) := by omega
    rw [List.length_cons, this]

/-- The concrete round-trip model of the claim: attribute `gain` with
schema `[bool, int, float, string]`, a setter that accepts and reports
success, and a getter answering the stored values
`true, 3, 1.5, "hello"`. -/
def gain_model : TSModel :=
  ⟨["set_gain", "get_gain"],
   [("gain_params", IValue.vtensor [0, 1, 2, 3])],
   fun name _ =>
     if name = "set_gain" then some (IValue.vint 0)
     else if name = "get_gain" then
       some (IValue.vlist [IValue.vbool true, IValue.vint 3,
         IValue.vfloat (mkRat 3 2), IValue.vstr "hello"])
     else none⟩

/-- C5: `get_attribute_as_string(name)` formats the i-th value returned by
`get_attribute` according to the i-th type tag of the `<name>_params`
schema (tag 0 a boolean as "true"/"false", tag 1 an integer in decimal,
tag 2 a float in fixed decimal, tag 3 a string raw), joins the formatted
fields with a single space and no trailing separator, fails when no
`<name>_params` schema exists, and fails on any tag outside the four
recognized values; in particular `set_attribute("gain",
["true","3","1.5","hello"])` against schema `[bool,int,float,string]`
passes the parsed values `true, 3, 1.5, "hello"` to the setter, and
`get_attribute_as_string("gain")` on the model storing them returns
`"true 3 1.500000 hello"`. -/
theorem claim_C5_get_attribute_as_string (m : TSModel) (name : String)
    (outs : List IValue) (houts : get_attribute m name = Except.ok outs) :
    (attr_tensor m (name ++ "_params") = none →
      get_attribute_as_string m name =
        Except.error ("parameters to set attribute " ++ name ++
          " not found in model")) ∧
    (∀ schema fields, attr_tensor m (name ++ "_params") = some schema →
      FormatsAll schema outs fields →
      get_attribute_as_string m name = Except.ok (join_spaces fields)) ∧
    (∀ good bad rest gvs gfields tvs,
      attr_tensor m (name ++ "_params") = some (good ++ bad :: rest) →
      FormatsAll good gvs gfields → outs = gvs ++ tvs →
      ratToInt bad ∉ ([0, 1, 2, 3] : List Int) →
      get_attribute_as_string m name =
        Except.error ("bad type id : " ++ toString (ratToInt bad) ++
          "at index " ++ toString good.length)) ∧
    set_attribute gain_model "gain" ["true", "3", "1.5", "hello"] =
      Except.ok [IValue.vbool true, IValue.vint 3,
        IValue.vfloat (mkRat 3 2), IValue.vstr "hello"] ∧
    get_attribute_as_string gain_model "gain" =
      Except.ok "true 3 1.500000 hello" := by
  refine ⟨fun hnone => ?_, fun schema fields hschema hfmt => ?_,
    fun good bad rest gvs gfields tvs hschema hfmt houts2 hbad => ?_,
    by rfl, by rfl⟩
  · rw [get_attribute_as_string, houts, hnone]
  · rw [get_attribute_as_string, houts, hschema]
    exact format_fields_ok hfmt outs 0 (by simp)
  · rw [get_attribute_as_string, houts, hschema]
    have h := format_fields_bad hfmt bad rest outs tvs 0 (by simp [houts2]) hbad
    rw [Nat.zero_add] at h
    exact h

theorem formats_to_bool (t : Int) (ht : t = 0) (b : Bool) (s : String)
    (hs : s = if b then "true" else "false") :
    FormatsTo t (IValue.vbool b) s := by
  subst ht; subst hs; exact FormatsTo.bool_tag b

theorem formats_to_int (t : Int) (ht : t = 1) (n : Int) (s : String)
    (hs : s = toString n) : FormatsTo t (IValue.vint n) s := by
  subst ht; subst hs; exact FormatsTo.int_tag n

theorem formats_to_float (t : Int) (ht : t = 2) (q : ℚ) (s : String)
    (hs : s = format_float q) : FormatsTo t (IValue.vfloat q) s := by
  subst ht; subst hs; exact FormatsTo.float_tag q

theorem formats_to_str (t : Int) (ht : t = 3) (s : String) :
    FormatsTo t (IValue.vstr s) s := by
  subst ht; exact FormatsTo.str_tag s

/-- Witness for C5: the formatting conjunct of the claim applied to the
concrete round-trip model gives exactly "true 3 1.500000 hello". -/
theorem claim_C5_get_attribute_as_string_witness :
    get_attribute_as_string gain_model "gain" =
      Except.ok "true 3 1.500000 hello" :=
  ((claim_C5_get_attribute_as_string gain_model "gain"
    [IValue.vbool true, IValue.vint 3, IValue.vfloat (mkRat 3 2),
      IValue.vstr "hello"] rfl).2.1 [0, 1, 2, 3]
    ["true", "3", "1.500000", "hello"] rfl
    (FormatsAll.cons (formats_to_bool _ (by decide) true "true" rfl)
      (FormatsAll.cons (formats_to_int _ (by decide) 3 "3" (by decide))
        (FormatsAll.cons
          (formats_to_float _ (by decide) (mkRat 3 2) "1.500000" (by decide))
          (FormatsAll.cons (formats_to_str _ (by decide) "hello")
            FormatsAll.nil))))).trans (by rfl)

/-! ### Claim C8: set_attribute parses by the schema and raises on failure -/

/-- Specification-side statement that a schema tag parses a positional
string argument to a typed setter input: tag 0 a boolean parse, tag 1 an
integer parse, tag 2 a float parse, tag 3 the string passed through. -/
inductive ParsesTo : Int → String → IValue → Prop where
  | bool_tag (s : String) : ParsesTo 0 s (IValue.vbool (to_bool s))
  | int_tag (s : String) : ParsesTo 1 s (IValue.vint (to_int s))
  | float_tag (s : String) : ParsesTo 2 s (IValue.vfloat (to_float s))
  | str_tag (s : String) : ParsesTo 3 s (IValue.vstr s)

/-- Pointwise parsing of a whole schema against an argument sequence (the
tags of the schema tensor are read through the `int` cast); it forces the
argument count to equal the schema length, which is the caller
precondition of the claim. -/
inductive ParsesAll : List ℚ → List String → List IValue → Prop where
  | nil : ParsesAll [] [] []
  | cons {t : ℚ} {s : String} {v : IValue} {ts : List ℚ} {ss : List String}
      {vs : List IValue} : ParsesTo (ratToInt t) s v → ParsesAll ts ss vs →
      ParsesAll (t :: ts) (s :: ss) (v :: vs)

theorem parses_to_bool (t : Int) (ht : t = 0) (s : String) (v : IValue)
    (hv : v = IValue.vbool (to_bool s)) : ParsesTo t s v := by
  subst ht; subst hv; exact ParsesTo.bool_tag s

theorem parses_to_int (t : Int) (ht : t = 1) (s : String) (v : IValue)
    (hv : v = IValue.vint (to_int s)) : ParsesTo t s v := by
  subst ht; subst hv; exact ParsesTo.int_tag s

theorem parses_to_float (t : Int) (ht : t = 2) (s : String) (v : IValue)
    (hv : v = IValue.vfloat (to_float s)) : ParsesTo t s v := by
  subst ht; subst hv; exact ParsesTo.float_tag s

theorem parses_to_str (t : Int) (ht : t = 3) (s : String) (v : IValue)
    (hv : v = IValue.vstr s) : ParsesTo t s v := by
  subst ht; subst hv; exact ParsesTo.str_tag s

theorem parse_inputs_ok {schema : List ℚ} {sargs : List String}
    {inputs : List IValue} (hp : ParsesAll schema sargs inputs) :
    ∀ (args : List String) (i : Nat), args.drop i = sargs →
      parse_setter_inputs schema args i = Except.ok inputs := by
  induction hp with
  | nil => intro args i _; rfl
  | @cons t s v ts ss vs hf hrest ih =>
    intro args i hdrop
    obtain ⟨hv, hd⟩ := getD_drop_cons args i s ss "" hdrop
    have hrec := ih args (i + 1) hd
    generalize hk : ratToInt t = k at hf
    cases hf with
    | bool_tag s =>
      simp only [parse_setter_inputs, hk, hv, if_pos, hrec, Except.map]
    | int_tag s =>
      simp only [parse_setter_inputs, hk, hv, hrec, Except.map,
        if_neg, ite_true, ite_false]
      rfl
    | float_tag s =>
      simp only [parse_setter_inputs, hk, hv, hrec, Except.map]
      rfl
    | str_tag s =>
      simp only [parse_setter_inputs, hk, hv, hrec, Except.map]
      rfl

theorem parse_inputs_bad {good : List ℚ} {gargs : List String}
    {ginputs : List IValue} (hp : ParsesAll good gargs ginputs) :
    ∀ (bad : ℚ) (rest : List ℚ) (args tail : List String) (i : Nat),
      args.drop i = gargs ++ tail →
      ratToInt bad ∉ ([0, 1, 2, 3] : List Int) →
      parse_setter_inputs (good ++ bad :: rest) args i =
        Except.error ("bad type id : " ++ toString (ratToInt bad) ++
          "at index " ++ toString (i + good.length)) := by
  induction hp with
  | nil =>
    intro bad rest args tail i _ hbad
    simp only [List.mem_cons, List.mem_singleton, not_or] at hbad
    obtain ⟨h0, h1, h2, h3⟩ := hbad
    rw [List.nil_append]
    simp only [parse_setter_inputs, h0, h1, h2, h3, ite_false, if_neg]
    rfl
  | @cons t s v ts ss vs hf hrest ih =>
    intro bad rest args tail i hdrop hbad
    obtain ⟨hv, hd⟩ := getD_drop_cons args i s (ss ++ tail) ""
      (by simpa using hdrop)
    have hrec := ih bad rest args tail (i + 1) hd hbad
    have hlen : i + 1 + ts.length = i + (ts.length + 1) := by omega
    generalize hk : ratToInt t = k at hf
    cases hf with
    | bool_tag s =>
      rw [List.cons_append]
      simp only [parse_setter_inputs, hk, hv, if_pos, hrec, Except.map,
        List.length_cons, hlen]
    | int_tag s =>
      rw [List.cons_append]
      simp only [parse_setter_inputs, hk, hv, hrec, Except.map,
        List.length_cons, hlen, ite_true, ite_false]
      rfl
    | float_tag s =>
      rw [List.cons_append]
      simp only [parse_setter_inputs, hk, hv, hrec, Except.map,
        List.length_cons, hlen]
      rfl
    | str_tag s =>
      rw [List.cons_append]
      simp only [parse_setter_inputs, hk, hv, hrec, Except.map,
        List.length_cons, hlen]
      rfl

/-- C8: `set_attribute(name, string_args)`, under the precondition that
the number of string arguments equals the schema length (mismatches are a
caller error, unvalidated, that can read out-of-range positions), raises
exactly when the method `set_<name>` does not exist, or the
`<name>_params` schema does not exist, or some schema tag is outside the
four recognized values, or the invoked setter returns a nonzero code;
otherwise it invokes the setter with each positional argument parsed by
the schema tag at its position (bool, int, float, or pass-through
string) and succeeds. -/
theorem claim_C8_set_attribute (m : TSModel) (name : String)
    (args : List String) :
    (("set_" ++ name) ∉ m.methods →
      set_attribute m name args =
        Except.error ("setter for attribute " ++ name ++
          " not found in model")) ∧
    (("set_" ++ name) ∈ m.methods →
      attr_tensor m (name ++ "_params") = none →
      set_attribute m name args =
        Except.error ("parameters to set attribute " ++ name ++
          " not found in model")) ∧
    (∀ schema inputs, ("set_" ++ name) ∈ m.methods →
      attr_tensor m (name ++ "_params") = some schema →
      ParsesAll schema args inputs →
      (m.run ("set_" ++ name) inputs = some (IValue.vint 0) →
        set_attribute m name args = Except.ok inputs) ∧
      (∀ c, m.run ("set_" ++ name) inputs = some (IValue.vint c) → c ≠ 0 →
        set_attribute m name args =
          Except.error ("setter for " ++ name ++ " failed"))) ∧
    (∀ good bad rest gargs ginputs tail, ("set_" ++ name) ∈ m.methods →
      attr_tensor m (name ++ "_params") = some (good ++ bad :: rest) →
      ParsesAll good gargs ginputs → args = gargs ++ tail →
      ratToInt bad ∉ ([0, 1, 2, 3] : List Int) →
      set_attribute m name args =
        Except.error ("bad type id : " ++ toString (ratToInt bad) ++
          "at index " ++ toString good.length)) := by
  refine ⟨fun hno => ?_, fun hyes hnone => ?_,
    fun schema inputs hyes hschema hparse => ⟨fun hrun => ?_,
      fun c hrun hc => ?_⟩,
    fun good bad rest gargs ginputs tail hyes hschema hparse hargs hbad => ?_⟩
  · rw [set_attribute, if_neg hno]
  · rw [set_attribute, if_pos hyes, hnone]
  · have hps := parse_inputs_ok hparse args 0 (by simp)
    simp [set_attribute, hyes, hschema, hps, hrun, IValue.toInt]
  · have hps := parse_inputs_ok hparse args 0 (by simp)
    simp [set_attribute, hyes, hschema, hps, hrun, IValue.toInt, hc]
  · have h := parse_inputs_bad hparse bad rest args tail 0 (by simp [hargs])
      hbad
    rw [Nat.zero_add] at h
    simp [set_attribute, hyes, hschema, h]

/-- Witness for C8: on a model with attribute `mode` of schema `[int]`
and an accepting setter, `set_attribute("mode", ["3"])` invokes the
setter with the parsed integer 3 and succeeds. -/
theorem claim_C8_set_attribute_witness :
    set_attribute ⟨["set_mode"], [("mode_params", IValue.vtensor [1])],
      fun n _ => if n = "set_mode" then some (IValue.vint 0) else none⟩
      "mode" ["3"] = Except.ok [IValue.vint 3] :=
  ((claim_C8_set_attribute ⟨["set_mode"],
      [("mode_params", IValue.vtensor [1])],
      fun n _ => if n = "set_mode" then some (IValue.vint 0) else none⟩
      "mode" ["3"]).2.2.1 [1] [IValue.vint 3] (by decide) rfl
    (ParsesAll.cons (parses_to_int _ (by decide) "3" _
      (by rw [show to_int "3" = (3 : Int) from by decide])) ParsesAll.nil)).1
    rfl

end NNTilde
